import Mathlib

/-!
Verification development for the meta-bulk-assign repository.

The development shallowly embeds the rule-evaluation core of the
application:

* `ProductMatcher` — `web/product-matcher.js` (`matchesRule`,
  `buildRuleTree`, `evaluateRuleNode`, `evaluateRuleTree`),
* `Webhook` — `web/privacy.js`-adjacent webhook module
  (`productMatchesRules`, `handleProductCreate`, `handleProductUpdate`),
* `StorefrontApi` — the storefront `checkIfConfigApplies` helper,
* `Metaobject` — `web/metaobject-handler.js` (`createMetaobject`,
  `updateMetaobject`),
* `Db` — `web/database.js` (configuration and rule CRUD used by the
  claims, including `duplicateConfiguration` and `updateConfiguration`),
* the apply loop of `POST /api/configurations/:id/apply`.

JavaScript built-ins are modelled explicitly: `JSON.parse` as the
executable `parseJson` below (integers, strings with the common escapes,
booleans, `null` and arrays; a JSON object or any other input is mapped
to `none`, which in every use site of this code base lands in the same
fallback branch as a parse exception), JavaScript string truthiness as
emptiness tests, and the external GraphQL calls as explicit oracle
arguments of type `Except String _`.
-/

/-! ## A small model of JSON.parse

Only the constructors that the stored `rule_id` values can produce are
modelled. JSON objects and fractional or exponent number forms are
rejected (`none`); in `matchesRule` and `checkIfConfigApplies` a parse
result that is not an array and a parse failure take the same fallback
branch, so this coarsening is observationally harmless there. -/

inductive Json where
  | null
  | bool (b : Bool)
  | num (n : Int)
  | str (s : String)
  | arr (elems : List Json)
deriving Repr

/-- Skip JSON whitespace. -/
def skipWs : List Char → List Char
  | c :: cs => if c = ' ' ∨ c = '\t' ∨ c = '\n' ∨ c = '\r' then skipWs cs else c :: cs
  | [] => []

/-- Parse the remainder of a JSON string literal (the opening quote is
already consumed), handling the common escapes. -/
def parseStringChars : Nat → List Char → Option (List Char × List Char)
  | 0, _ => none
  | _, [] => none
  | fuel + 1, c :: cs =>
    if c = '"' then some ([], cs)
    else if c = '\\' then
      match cs with
      | [] => none
      | d :: ds =>
        let esc : Option Char :=
          if d = '"' then some '"'
          else if d = '\\' then some '\\'
          else if d = '/' then some '/'
          else if d = 'n' then some '\n'
          else if d = 't' then some '\t'
          else if d = 'r' then some '\r'
          else none
        match esc with
        | some e => (parseStringChars fuel ds).map (fun r => (e :: r.1, r.2))
        | none => none
    else (parseStringChars fuel cs).map (fun r => (c :: r.1, r.2))

/-- Decimal digits to a natural number. -/
def digitsToNat (ds : List Char) : Nat :=
  ds.foldl (fun n c => n * 10 + (c.toNat - '0'.toNat)) 0

mutual

/-- Parse one JSON value, returning it with the unconsumed remainder. -/
def parseValue : Nat → List Char → Option (Json × List Char)
  | 0, _ => none
  | fuel + 1, cs =>
    match skipWs cs with
    | [] => none
    | c :: rest =>
      if c = '"' then
        (parseStringChars fuel rest).map (fun r => (Json.str (String.mk r.1), r.2))
      else if c = '[' then
        match skipWs rest with
        | ']' :: r2 => some (Json.arr [], r2)
        | r => (parseArrayItems fuel r).map (fun r2 => (Json.arr r2.1, r2.2))
      else if c = 'n' then
        match rest with
        | 'u' :: 'l' :: 'l' :: r => some (Json.null, r)
        | _ => none
      else if c = 't' then
        match rest with
        | 'r' :: 'u' :: 'e' :: r => some (Json.bool true, r)
        | _ => none
      else if c = 'f' then
        match rest with
        | 'a' :: 'l' :: 's' :: 'e' :: r => some (Json.bool false, r)
        | _ => none
      else if c = '-' ∨ c.isDigit then
        let body := if c = '-' then rest else c :: rest
        let digits := body.takeWhile Char.isDigit
        let after := body.dropWhile Char.isDigit
        if digits.isEmpty then none
        else
          match after with
          | '.' :: _ => none
          | 'e' :: _ => none
          | 'E' :: _ => none
          | _ =>
            let n : Int := Int.ofNat (digitsToNat digits)
            some (Json.num (if c = '-' then -n else n), after)
      else none

/-- Parse a non-empty comma-separated item list up to the closing
bracket. -/
def parseArrayItems : Nat → List Char → Option (List Json × List Char)
  | 0, _ => none
  | fuel + 1, cs =>
    match parseValue fuel cs with
    | none => none
    | some (v, rest) =>
      match skipWs rest with
      | ',' :: r2 => (parseArrayItems fuel r2).map (fun r => (v :: r.1, r.2))
      | ']' :: r2 => some ([v], r2)
      | _ => none

end

/-- Model of `JSON.parse`: `some` on success, `none` where the
JavaScript call throws (or produces a value outside the modelled
fragment, see above). -/
def parseJson (s : String) : Option Json :=
  match parseValue (2 * s.length + 2) s.data with
  | some (v, rest) => if (skipWs rest).isEmpty then some v else none
  | none => none

/-! ## Data model

`configuration_rules` rows. The JavaScript reads each field through
`rule.snake_case || rule.camelCase`; a single Lean field models the
merged result. `parent_id` and `rule_id` are nullable columns
(`Option`); the stored SERIAL ids are positive, so JavaScript truthiness
of `parent_id` coincides with `Option.isSome`. -/

structure Rule where
  id : Nat
  configurationId : Nat
  parentId : Option Nat
  ruleType : String
  ruleValue : String
  ruleId : Option String
  operator : String
  level : Nat
  position : Nat
deriving Repr, DecidableEq

/-- Truthiness of a nullable string column: null, missing and the empty
string are falsy. -/
def strTruthy : Option String → Bool
  | none => false
  | some s => !(s == "")

/-- One collection membership of a product as returned by the GraphQL
catalog fetch in `product-matcher.js` (`collections.edges[].node`). -/
structure Collection where
  id : String
  title : String
deriving Repr, DecidableEq

/-- A product category (`category { id name }`). -/
structure Category where
  id : String
  name : String
deriving Repr, DecidableEq

/-- A catalog product as fetched by `fetchAllProducts` in
`product-matcher.js` (the `tags` field is never read by the matcher and
is omitted). -/
structure Product where
  id : String
  title : String
  vendor : String
  productType : String
  category : Option Category
  collections : List Collection
deriving Repr, DecidableEq

/-! ## ProductMatcher: matchesRule -/

/-- Embedding of `matchesRule(product, rule)` from
`product-matcher.js`. The `default` switch branch returns `false`. -/
def matchesRule (product : Product) (rule : Rule) : Bool :=
  let rvTruthy : Bool := !(rule.ruleValue == "")
  let ridTruthy : Bool := strTruthy rule.ruleId
  if !rvTruthy && !ridTruthy then false
  else if rule.ruleType == "vendor" then
    product.vendor == rule.ruleValue
  else if rule.ruleType == "category" then
    if ridTruthy then
      match product.category, rule.ruleId with
      | some c, some rid => c.id == rid
      | _, _ => false
    else
      match product.category with
      | some c => c.name == rule.ruleValue
      | none => false
  else if rule.ruleType == "collection" then
    if ridTruthy then
      match rule.ruleId with
      | some rid => product.collections.any (fun c => c.id == rid)
      | none => false
    else
      product.collections.any (fun c => c.title == rule.ruleValue)
  else if rule.ruleType == "product" then
    if !ridTruthy then false
    else
      match rule.ruleId with
      | none => false
      | some rid =>
        match parseJson rid with
        | some (Json.arr elems) =>
          elems.any (fun j =>
            match j with
            | Json.str s => s == product.id
            | _ => false)
        | _ => product.id == rid
  else false

/-! ## ProductMatcher: buildRuleTree -/

/-- A node of the in-memory rule tree built by `buildRuleTree`. -/
inductive RuleNode where
  | mk (rule : Rule) (children : List RuleNode)
deriving Repr

def RuleNode.rule : RuleNode → Rule
  | .mk r _ => r

def RuleNode.children : RuleNode → List RuleNode
  | .mk _ c => c

/-- Materialise the node of one rule: its children are the rules whose
`parentId` points at it, in input order — exactly the lists the
JavaScript builds by mutating `ruleMap`. The fuel bounds the recursion
depth; with fuel `rules.length` the tree is complete for every acyclic
parent relation (the only kind the database can produce, since parent
pointers are assigned from already existing ids). -/
def buildNode (rules : List Rule) : Nat → Rule → RuleNode
  | 0, r => .mk r []
  | fuel + 1, r =>
    .mk r ((rules.filter (fun c => c.parentId == some r.id)).map (buildNode rules fuel))

/-- Embedding of `buildRuleTree(rules)`: the roots are the rules with a
null `parentId`; a non-root rule is attached below its parent only when
the parent id occurs in the input list. -/
def buildRuleTree (rules : List Rule) : List RuleNode :=
  (rules.filter (fun r => r.parentId == none)).map (buildNode rules rules.length)

/-! ## ProductMatcher: evaluateRuleNode / evaluateRuleTree -/

mutual

/-- Embedding of `evaluateRuleNode(product, node)`: fail fast on the
node's own predicate, succeed on a childless node, otherwise combine the
child group by the first child's operator. -/
def evaluateRuleNode (product : Product) : RuleNode → Bool
  | .mk rule children =>
    if !(matchesRule product rule) then false
    else
      match children with
      | [] => true
      | first :: rest =>
        if (RuleNode.rule first).operator == "AND" then
          evalAllNodes product (first :: rest)
        else
          evalAnyNodes product (first :: rest)

/-- `children.every(child => evaluateRuleNode(product, child))`. -/
def evalAllNodes (product : Product) : List RuleNode → Bool
  | [] => true
  | n :: ns => evaluateRuleNode product n && evalAllNodes product ns

/-- `children.some(child => evaluateRuleNode(product, child))`. -/
def evalAnyNodes (product : Product) : List RuleNode → Bool
  | [] => false
  | n :: ns => evaluateRuleNode product n || evalAnyNodes product ns

end

/-- Embedding of `evaluateRuleTree(product, ruleTree)`: an empty root
list matches everything, otherwise the roots are OR'd. -/
def evaluateRuleTree (product : Product) (ruleTree : List RuleNode) : Bool :=
  if ruleTree.isEmpty then true
  else ruleTree.any (evaluateRuleNode product)

/-- Replace the stored `operator` field of a root node's own rule,
leaving its children untouched. -/
def setRootOperator (op : String) : RuleNode → RuleNode
  | .mk r c => .mk { r with operator := op } c

mutual

/-- Does rule `r` occur as the rule of any node of this tree? -/
def treeContainsRule (r : Rule) : RuleNode → Bool
  | .mk rule children => rule == r || listContainsRule r children

/-- `treeContainsRule` over a list of sibling nodes. -/
def listContainsRule (r : Rule) : List RuleNode → Bool
  | [] => false
  | n :: ns => treeContainsRule r n || listContainsRule r ns

end

/-! ## Webhook handlers (PRODUCTS_CREATE / PRODUCTS_UPDATE)

The webhook payload carries only a numeric product id, the vendor, the
`product_type` string and (optionally) a category object — no collection
memberships. -/

/-- The product attributes available in the webhook payload. -/
structure WebhookProduct where
  id : Nat
  vendor : String
  product_type : String
  category : Option Category
deriving Repr, DecidableEq

/-- The leaf test of the webhook-local `matchesRule(rule)` closure in
`productMatchesRules`: `collection` rules never match here (the payload
has no collection data), and a `product` rule compares the payload id
rendered as a product GID against `rule.rule_id`. -/
def webhookRuleMatches (product : WebhookProduct) (rule : Rule) : Bool :=
  if rule.ruleType == "vendor" then
    product.vendor == rule.ruleValue
  else if rule.ruleType == "category" then
    product.product_type == rule.ruleValue ||
      (match product.category with
       | some c => c.name == rule.ruleValue
       | none => false)
  else if rule.ruleType == "collection" then false
  else if rule.ruleType == "product" then
    some ("gid://shopify/Product/" ++ toString product.id) == rule.ruleId
  else false

mutual

/-- The recursive part of the webhook-local `matchesRule(rule)`:
identical child-combination logic to `evaluateRuleNode`, over the
webhook leaf test. -/
def webhookMatchesRuleNode (product : WebhookProduct) : RuleNode → Bool
  | .mk rule children =>
    if !(webhookRuleMatches product rule) then false
    else
      match children with
      | [] => true
      | first :: rest =>
        if (RuleNode.rule first).operator == "AND" then
          webhookEvalAll product (first :: rest)
        else
          webhookEvalAny product (first :: rest)

/-- `rule.children.every(child => matchesRule(child))`. -/
def webhookEvalAll (product : WebhookProduct) : List RuleNode → Bool
  | [] => true
  | n :: ns => webhookMatchesRuleNode product n && webhookEvalAll product ns

/-- `rule.children.some(child => matchesRule(child))`. -/
def webhookEvalAny (product : WebhookProduct) : List RuleNode → Bool
  | [] => false
  | n :: ns => webhookMatchesRuleNode product n || webhookEvalAny product ns

end

/-- Embedding of `productMatchesRules(product, rules)` from the webhook
module: an empty rule list matches every product; otherwise the flat
list is turned into a tree (the inline construction is the same
grouping as `buildRuleTree`, reading only the snake_case `parent_id`)
and the product matches when any root node matches. -/
def productMatchesRules (product : WebhookProduct) (rules : List Rule) : Bool :=
  if rules.isEmpty then true
  else (buildRuleTree rules).any (webhookMatchesRuleNode product)

/-! ## Configuration rows and database reads -/

/-- A row of the `configurations` table. The `metafield_configs` column
is serialized text; the claims never inspect its structure, so it is
kept as the raw string. -/
structure ConfigRow where
  id : Nat
  shop : String
  name : Option String
  type : String
  metafield_configs : String
  priority : Int
  show_on_storefront : Bool
  storefront_position : String
  created_at : Nat
  updated_at : Nat
deriving Repr, DecidableEq

/-- Insert `x` in front of the first element `y` with `le x y`. -/
def insertBy {α : Type} (le : α → α → Bool) (x : α) : List α → List α
  | [] => [x]
  | y :: ys => if le x y then x :: y :: ys else y :: insertBy le x ys

/-- Insertion sort; the model of an SQL `ORDER BY` clause whose key
comparison is `le`. -/
def insertionSortBy {α : Type} (le : α → α → Bool) : List α → List α
  | [] => []
  | x :: xs => insertBy le x (insertionSortBy le xs)

/-- The `ORDER BY priority DESC, created_at DESC` key of
`getAllConfigurations`: may `a` come before `b`? -/
def configBefore (a b : ConfigRow) : Bool :=
  b.priority < a.priority ||
    (a.priority == b.priority && decide (b.created_at ≤ a.created_at))

/-- Embedding of `database.getAllConfigurations(shop)`: the shop's rows
ordered by descending priority (ties by descending creation time). -/
def getAllConfigurations (shop : String) (rows : List ConfigRow) : List ConfigRow :=
  insertionSortBy configBefore (rows.filter (fun c => c.shop == shop))

/-- The `ORDER BY level, position` key of `getConfigurationRules`. -/
def ruleBefore (a b : Rule) : Bool :=
  a.level < b.level || (a.level == b.level && decide (a.position ≤ b.position))

/-! ## Webhook priority-resolution loop -/

/-- The `for (const config of configurations)` loop of
`handleProductCreate` / `handleProductUpdate`. `rulesOf` stands for
`database.getConfigurationRules(config.id)` and `applyOutcome` for the
combined effect of `processMetafieldConfigs` plus
`applyMetafieldsToProduct`, whose failure the loop catches per
configuration (logging it) and keeps going. The returned list records,
in loop order, each matching configuration's id and whether its
application succeeded. -/
def processConfigs (product : WebhookProduct) (rulesOf : Nat → List Rule)
    (applyOutcome : Nat → Except String Unit) : List ConfigRow → List (Nat × Bool)
  | [] => []
  | c :: rest =>
    if productMatchesRules product (rulesOf c.id) then
      match applyOutcome c.id with
      | .ok _ => (c.id, true) :: processConfigs product rulesOf applyOutcome rest
      | .error _ => (c.id, false) :: processConfigs product rulesOf applyOutcome rest
    else
      processConfigs product rulesOf applyOutcome rest

/-- The body of `handleProductCreate` up to and including the
configuration loop: parse the payload (`bodyParse` is the outcome of
`JSON.parse(body)`), bail out when no offline session exists, load the
shop's configurations (ordered by descending priority) and run the
loop. Errors escaping this body are exactly the `Except.error` results. -/
def handleProductCreateBody (bodyParse : Except String WebhookProduct)
    (session : Option Unit) (shop : String) (rows : List ConfigRow)
    (rulesOf : Nat → List Rule) (applyOutcome : Nat → Except String Unit) :
    Except String (List (Nat × Bool)) := do
  let payload ← bodyParse
  match session with
  | none => pure []
  | some _ =>
    pure (processConfigs payload rulesOf applyOutcome (getAllConfigurations shop rows))

/-- Embedding of `handleProductCreate`: the whole body sits in a
`try/catch` whose catch branch only logs — the handler itself always
returns normally. -/
def handleProductCreate (bodyParse : Except String WebhookProduct)
    (session : Option Unit) (shop : String) (rows : List ConfigRow)
    (rulesOf : Nat → List Rule) (applyOutcome : Nat → Except String Unit) :
    Except String (List (Nat × Bool)) :=
  match handleProductCreateBody bodyParse session shop rows rulesOf applyOutcome with
  | .ok applied => .ok applied
  | .error _ => .ok []

/-- Embedding of `handleProductUpdate`, whose source is line-for-line
the same loop as `handleProductCreate`. -/
def handleProductUpdate (bodyParse : Except String WebhookProduct)
    (session : Option Unit) (shop : String) (rows : List ConfigRow)
    (rulesOf : Nat → List Rule) (applyOutcome : Nat → Except String Unit) :
    Except String (List (Nat × Bool)) :=
  match handleProductCreateBody bodyParse session shop rows rulesOf applyOutcome with
  | .ok applied => .ok applied
  | .error _ => .ok []

/-! ## Bulk apply (POST /api/configurations/:id/apply) -/

/-- The summary object the apply route responds with. -/
structure ApplyResults where
  total : Nat
  successful : Nat
  failed : Nat
  errors : List (String × String × String)
deriving Repr, DecidableEq

/-- The `for (const product of matchingProducts)` loop: per product the
external write (`writeOutcome`, standing for
`applyMetafieldsToProduct`) either succeeds or throws; a throw is
recorded as an `(id, title, message)` error entry and the loop
continues. Returns (successful, failed, errors) accumulated in loop
order. -/
def applyLoop (writeOutcome : String → Except String Unit) :
    List Product → Nat × Nat × List (String × String × String)
  | [] => (0, 0, [])
  | p :: rest =>
    let acc := applyLoop writeOutcome rest
    match writeOutcome p.id with
    | .ok _ => (acc.1 + 1, acc.2.1, acc.2.2)
    | .error msg => (acc.1, acc.2.1 + 1, (p.id, p.title, msg) :: acc.2.2)

/-- Embedding of the apply section of `POST /api/configurations/:id/apply`:
`total` is fixed to the number of matching products before the loop
starts. -/
def applyConfigurationRoute (writeOutcome : String → Except String Unit)
    (matchingProducts : List Product) : ApplyResults :=
  let acc := applyLoop writeOutcome matchingProducts
  { total := matchingProducts.length
    successful := acc.1
    failed := acc.2.1
    errors := acc.2.2 }

/-! ## Database state and the configuration CRUD used by the claims -/

/-- The persistent state relevant to the claims: the two tables plus
their SERIAL id counters (PostgreSQL assigns strictly increasing ids,
so every existing id is below the counter). -/
structure DbState where
  configurations : List ConfigRow
  rules : List Rule
  nextConfigId : Nat
  nextRuleId : Nat
deriving Repr

/-- Embedding of `database.createConfiguration`: INSERT with the column
defaults `show_on_storefront = false`, `storefront_position =
'after_price'` and CURRENT_TIMESTAMP (`now`), RETURNING the new row. -/
def createConfiguration (shop : String) (name : Option String) (type : String)
    (metafieldConfigs : String) (priority : Int) (now : Nat) (st : DbState) :
    ConfigRow × DbState :=
  let row : ConfigRow :=
    { id := st.nextConfigId
      shop := shop
      name := name
      type := type
      metafield_configs := metafieldConfigs
      priority := priority
      show_on_storefront := false
      storefront_position := "after_price"
      created_at := now
      updated_at := now }
  (row, { st with
            configurations := st.configurations ++ [row]
            nextConfigId := st.nextConfigId + 1 })

/-- Embedding of `database.createConfigurationRule`: INSERT RETURNING
the new row, with the next SERIAL id. -/
def createConfigurationRule (configId : Nat) (parentId : Option Nat)
    (ruleType : String) (ruleValue : String) (ruleId : Option String)
    (operator : String) (level : Nat) (position : Nat) (st : DbState) :
    Rule × DbState :=
  let rule : Rule :=
    { id := st.nextRuleId
      configurationId := configId
      parentId := parentId
      ruleType := ruleType
      ruleValue := ruleValue
      ruleId := ruleId
      operator := operator
      level := level
      position := position }
  (rule, { st with
             rules := st.rules ++ [rule]
             nextRuleId := st.nextRuleId + 1 })

/-- Embedding of `database.getConfigurationRules(configId)`: the
configuration's rules ordered by `level, position`. -/
def getConfigurationRules (configId : Nat) (st : DbState) : List Rule :=
  insertionSortBy ruleBefore (st.rules.filter (fun r => r.configurationId == configId))

/-- Embedding of `database.getConfigurationById(id)`. -/
def getConfigurationById (id : Nat) (st : DbState) : Option ConfigRow :=
  st.configurations.find? (fun c => c.id == id)

/-- Embedding of `database.updateConfiguration(id, name, type,
metafieldConfigs)`: the UPDATE statement sets exactly `name`, `type`,
`metafield_configs` and `updated_at` on the matching row. -/
def updateConfiguration (id : Nat) (name : Option String) (type : String)
    (metafieldConfigs : String) (now : Nat) (table : List ConfigRow) :
    List ConfigRow :=
  table.map (fun row =>
    if row.id == id then
      { row with
          name := name
          type := type
          metafield_configs := metafieldConfigs
          updated_at := now }
    else row)

/-- The `database.updateConfiguration(...)` call placed by
`PUT /api/configurations/:id`: the route passes six arguments
(`showOnStorefront || false` and `storefrontPosition || 'after_price'`
as the fifth and sixth), but the database function declares only four
parameters, so JavaScript silently drops the two storefront
arguments. -/
def putConfigurationUpdateCall (id : Nat) (name : Option String) (type : String)
    (metafieldConfigs : String) (showOnStorefront : Bool)
    (storefrontPosition : String) (now : Nat) (table : List ConfigRow) :
    List ConfigRow :=
  updateConfiguration id name type metafieldConfigs now table

/-- The name the duplicate gets: `` `${original.name} (Copy)` `` when the
original name is truthy, otherwise null. -/
def copyName : Option String → Option String
  | some n => if n == "" then none else some (n ++ " (Copy)")
  | none => none

/-- Embedding of `database.duplicateConfiguration(id, shop)`: `none`
when the source configuration does not exist; otherwise a new
configuration row is created and every source rule is re-inserted under
the new configuration with its `parent_id` copied verbatim (the source
code itself notes this "will need mapping if parent_id references are
used"). -/
def duplicateConfiguration (id : Nat) (shop : String) (now : Nat) (st : DbState) :
    Option (ConfigRow × DbState) :=
  match getConfigurationById id st with
  | none => none
  | some original =>
    let created := createConfiguration shop (copyName original.name) original.type
      original.metafield_configs original.priority now st
    let newConfig := created.1
    let st1 := created.2
    let sourceRules := getConfigurationRules id st1
    let st2 := sourceRules.foldl
      (fun acc r =>
        (createConfigurationRule newConfig.id r.parentId r.ruleType r.ruleValue
          r.ruleId r.operator r.level r.position acc).2)
      st1
    some (newConfig, st2)

/-- The rows `duplicateConfiguration` inserts for source rules `rs`,
when the rule-id counter starts at `n`: copies in order with ids
`n, n+1, ...`. -/
def copiedRules (configId : Nat) (n : Nat) : List Rule → List Rule
  | [] => []
  | r :: rs =>
    { id := n
      configurationId := configId
      parentId := r.parentId
      ruleType := r.ruleType
      ruleValue := r.ruleValue
      ruleId := r.ruleId
      operator := r.operator
      level := r.level
      position := r.position } :: copiedRules configId (n + 1) rs

/-! ## Storefront rule check (checkIfConfigApplies)

The storefront metafields endpoint re-implements the rule check as a
flat OR over the configuration's rules, with its own leaf semantics
(including a JSON-array parse of `rule_id` for `collection` and
`product` rules). `JSON.parse(null)` in JavaScript coerces to the
string "null" and yields the value `null` without throwing, which then
takes the non-array branch; the embedding reproduces that. -/

/-- A collection node as fetched by the storefront product query
(`collections.edges[].node` with `id`, `handle`, `title`). -/
structure SfCollection where
  id : String
  handle : String
  title : String
deriving Repr, DecidableEq

/-- The product shape fetched by `checkIfConfigApplies`. -/
structure SfProduct where
  id : String
  vendor : String
  productType : String
  collections : List SfCollection
deriving Repr, DecidableEq

/-- Does the parsed JSON array contain this string (JavaScript
`Array.prototype.includes` against a string: only string elements can
be strictly equal)? -/
def jsonArrContainsStr (xs : List Json) (s : String) : Bool :=
  xs.any (fun j =>
    match j with
    | Json.str t => t == s
    | _ => false)

/-- The per-rule test inside the `for (const rule of rules)` loop of
`checkIfConfigApplies`. A `switch` without a matching case leaves
`matches = false`. -/
def sfRuleMatches (productHandle : String) (product : SfProduct) (rule : Rule) : Bool :=
  if rule.ruleType == "vendor" then
    product.vendor == rule.ruleValue
  else if rule.ruleType == "product" then
    match rule.ruleId with
    | none => false
    | some s =>
      match parseJson s with
      | some (Json.arr xs) => jsonArrContainsStr xs product.id
      | some _ => false
      | none => product.id == s || productHandle == rule.ruleValue
  else if rule.ruleType == "category" then
    product.productType == rule.ruleValue
  else if rule.ruleType == "collection" then
    let fallback := product.collections.any (fun c =>
      (match rule.ruleId with
       | some s => c.id == s
       | none => false) ||
      c.handle == rule.ruleValue || c.title == rule.ruleValue)
    match rule.ruleId with
    | none => fallback
    | some s =>
      match parseJson s with
      | some (Json.arr xs) =>
        product.collections.any (fun c => jsonArrContainsStr xs c.id)
      | _ => fallback
  else false

/-- Embedding of `checkIfConfigApplies(shop, productHandle, rules)`: an
empty rule list applies to every product; a failed session lookup or
product fetch (`product = none`) yields `false`; otherwise the
configuration applies when any rule matches. -/
def checkIfConfigApplies (productHandle : String) (product : Option SfProduct)
    (rules : List Rule) : Bool :=
  if rules.isEmpty then true
  else
    match product with
    | none => false
    | some p => rules.any (sfRuleMatches productHandle p)

/-! ## Metaobject resolution (createMetaobject / updateMetaobject)

External GraphQL calls are oracles: `getDef` models
`getMetaobjectDefinition`, `createResult` the `metaobjectCreate`
mutation (returning the new GID or failing — a response with
`userErrors` is a failure, as the source then throws), and
`updateResult` the `metaobjectUpdate` mutation. JavaScript's unbounded
recursion over nested definitions is bounded by explicit fuel; fuel
exhaustion is reported as an error. -/

/-- A field value as supplied to the resolution: a string, a nested
field-value map, or null. An absent key models `undefined`. -/
inductive FieldValue where
  | vNull
  | vStr (s : String)
  | vObj (fields : List (String × FieldValue))
deriving Repr

/-- One `fieldDefinitions` entry of a metaobject definition. -/
structure FieldDefinition where
  key : String
  required : Bool
  typeName : String
  validations : List (String × String)
deriving Repr

/-- A metaobject definition as returned by `getMetaobjectDefinition`. -/
structure MetaobjectDefinition where
  id : String
  name : String
  type : String
  fieldDefinitions : List FieldDefinition
deriving Repr

/-- `fieldValues[fieldKey]` (first binding wins, as for object keys). -/
def lookupFieldValue (fieldValues : List (String × FieldValue)) (key : String) :
    Option FieldValue :=
  fieldValues.lookup key

/-- The skip test `fieldValue === undefined || fieldValue === null ||
fieldValue === ''`. -/
def valueMissing : Option FieldValue → Bool
  | none => true
  | some .vNull => true
  | some (.vStr s) => s == ""
  | some (.vObj _) => false

/-- JavaScript `String(fieldValue)` for the values that reach it. -/
def valueToString : Option FieldValue → String
  | some (.vStr s) => s
  | some (.vObj _) => "[object Object]"
  | some .vNull => "null"
  | none => "undefined"

/-- The nested field values handed to a recursive `createMetaobject`
call: property lookup on a non-object yields `undefined` for every key,
so a non-object value behaves as an empty map. -/
def nestedFieldValues : Option FieldValue → List (String × FieldValue)
  | some (.vObj fs) => fs
  | _ => []

/-- `fieldDef.validations?.find(v => v.name === "metaobject_definition_id")`. -/
def findMetaobjectDefinitionId (validations : List (String × String)) :
    Option (String × String) :=
  validations.find? (fun v => v.1 == "metaobject_definition_id")

mutual

/-- Embedding of `createMetaobject(session, metaobjectType, fieldValues,
metaobjectDefinition)`: process the definition's fields (recursively
resolving nested metaobject references), then run the create
mutation. -/
def createMetaobject (fuel : Nat) (getDef : String → Except String MetaobjectDefinition)
    (createResult : String → List (String × String) → Except String String)
    (metaobjectType : String) (fieldValues : List (String × FieldValue))
    (defn : MetaobjectDefinition) : Except String String :=
  match fuel with
  | 0 => .error "metaobject recursion limit exceeded"
  | fuel + 1 => do
    let processedFields ←
      processCreateFields fuel getDef createResult fieldValues defn.fieldDefinitions
    createResult metaobjectType processedFields

/-- The field-processing loop of `createMetaobject`: a missing value on
a required field throws; a missing value on an optional field is
skipped; a `metaobject_reference` field is resolved recursively; every
other type (including `file_reference`, whose source branch is
identical) is stringified. -/
def processCreateFields (fuel : Nat) (getDef : String → Except String MetaobjectDefinition)
    (createResult : String → List (String × String) → Except String String)
    (fieldValues : List (String × FieldValue)) :
    List FieldDefinition → Except String (List (String × String))
  | [] => .ok []
  | fd :: rest => do
    let fieldValue := lookupFieldValue fieldValues fd.key
    if valueMissing fieldValue then
      if fd.required then
        .error ("Required field " ++ fd.key ++ " is missing")
      else
        processCreateFields fuel getDef createResult fieldValues rest
    else if fd.typeName == "metaobject_reference" then
      match findMetaobjectDefinitionId fd.validations with
      | none =>
        .error ("Cannot find referenced metaobject type for field " ++ fd.key)
      | some validation => do
        let referencedDefinition ← getDef validation.2
        let nestedGid ← createMetaobject fuel getDef createResult
          referencedDefinition.type (nestedFieldValues fieldValue) referencedDefinition
        let restFields ← processCreateFields fuel getDef createResult fieldValues rest
        pure ((fd.key, nestedGid) :: restFields)
    else do
      let restFields ← processCreateFields fuel getDef createResult fieldValues rest
      pure ((fd.key, valueToString fieldValue) :: restFields)

end

/-- The field-processing loop of `updateMetaobject`: a missing value is
always skipped (there is no `required` check on this path); a
`metaobject_reference` whose value is already a `gid://` string passes
through; one whose value is an object creates a nested metaobject (the
referenced definition id must be a truthy validation value); any other
value for a `metaobject_reference` is silently dropped; other types are
stringified. -/
def processUpdateFields (fuel : Nat) (getDef : String → Except String MetaobjectDefinition)
    (createResult : String → List (String × String) → Except String String)
    (fieldValues : List (String × FieldValue)) :
    List FieldDefinition → Except String (List (String × String))
  | [] => .ok []
  | fd :: rest => do
    let fieldValue := lookupFieldValue fieldValues fd.key
    if valueMissing fieldValue then
      processUpdateFields fuel getDef createResult fieldValues rest
    else if fd.typeName == "metaobject_reference" then
      match fieldValue with
      | some (.vStr s) =>
        if s.startsWith "gid://" then do
          let restFields ← processUpdateFields fuel getDef createResult fieldValues rest
          pure ((fd.key, s) :: restFields)
        else
          processUpdateFields fuel getDef createResult fieldValues rest
      | some (.vObj fs) =>
        match findMetaobjectDefinitionId fd.validations with
        | none =>
          .error ("Cannot find referenced metaobject type for field " ++ fd.key)
        | some validation =>
          if validation.2 == "" then
            .error ("Cannot find referenced metaobject type for field " ++ fd.key)
          else do
            let referencedDefinition ← getDef validation.2
            let nestedGid ← createMetaobject fuel getDef createResult
              referencedDefinition.type fs referencedDefinition
            let restFields ← processUpdateFields fuel getDef createResult fieldValues rest
            pure ((fd.key, nestedGid) :: restFields)
      | _ => processUpdateFields fuel getDef createResult fieldValues rest
    else do
      let restFields ← processUpdateFields fuel getDef createResult fieldValues rest
      pure ((fd.key, valueToString fieldValue) :: restFields)

/-- Embedding of `updateMetaobject(session, metaobjectId, fieldValues,
metaobjectDefinition)`: process the fields (without any required-field
enforcement), then run the update mutation. -/
def updateMetaobject (fuel : Nat) (getDef : String → Except String MetaobjectDefinition)
    (createResult : String → List (String × String) → Except String String)
    (updateResult : String → List (String × String) → Except String String)
    (metaobjectId : String) (fieldValues : List (String × FieldValue))
    (defn : MetaobjectDefinition) : Except String String := do
  let processedFields ←
    processUpdateFields fuel getDef createResult fieldValues defn.fieldDefinitions
  updateResult metaobjectId processedFields

/-! ## Concrete fixtures used by witnesses and counterexamples -/

/-- A catalog product in one collection, used by the C3 material. -/
def cexProduct : Product :=
  { id := "gid://shopify/Product/1"
    title := "Widget"
    vendor := "Acme"
    productType := "Tools"
    category := none
    collections := [{ id := "gid://shopify/Collection/1", title := "Summer" }] }

/-- A collection rule whose `rule_id` is a JSON-encoded list containing
the collection the product belongs to. -/
def cexCollectionListRule : Rule :=
  { id := 1
    configurationId := 1
    parentId := none
    ruleType := "collection"
    ruleValue := "Collections"
    ruleId := some "[\"gid://shopify/Collection/1\"]"
    operator := "OR"
    level := 0
    position := 0 }

/-- A collection rule matching by a single collection id. -/
def cexCollectionSingleRule : Rule :=
  { id := 2
    configurationId := 1
    parentId := none
    ruleType := "collection"
    ruleValue := "Collections"
    ruleId := some "gid://shopify/Collection/1"
    operator := "OR"
    level := 0
    position := 0 }

/-- The storefront view of `cexProduct`. -/
def cexSfProduct : SfProduct :=
  { id := "gid://shopify/Product/1"
    vendor := "Acme"
    productType := "Tools"
    collections := [{ id := "gid://shopify/Collection/1"
                      handle := "summer"
                      title := "Summer" }] }

/-- A product rule whose `rule_id` is a JSON-encoded list of two
product GIDs. -/
def cexProductListRule : Rule :=
  { id := 3
    configurationId := 1
    parentId := none
    ruleType := "product"
    ruleValue := "Selected products"
    ruleId := some "[\"gid://shopify/Product/1\",\"gid://shopify/Product/2\"]"
    operator := "OR"
    level := 0
    position := 0 }

/-- A product rule whose `rule_id` does not parse as JSON. -/
def cexProductRawRule : Rule :=
  { id := 4
    configurationId := 1
    parentId := none
    ruleType := "product"
    ruleValue := "Selected products"
    ruleId := some "gid://shopify/Product/7"
    operator := "OR"
    level := 0
    position := 0 }

/-- A root rule for the tree-builder fixtures. -/
def c6Root : Rule :=
  { id := 1
    configurationId := 1
    parentId := none
    ruleType := "vendor"
    ruleValue := "Acme"
    ruleId := none
    operator := "OR"
    level := 0
    position := 0 }

/-- A rule whose `parent_id` (99) is not the id of any rule in the
fixture list. -/
def c6Dangling : Rule :=
  { id := 2
    configurationId := 1
    parentId := some 99
    ruleType := "category"
    ruleValue := "Tools"
    ruleId := none
    operator := "AND"
    level := 1
    position := 0 }

/-- The flat rule list containing a dangling reference. -/
def c6Rules : List Rule := [c6Root, c6Dangling]

/-- A metaobject definition with a single required text field. -/
def c8Defn : MetaobjectDefinition :=
  { id := "gid://shopify/MetaobjectDefinition/1"
    name := "Specs"
    type := "specs"
    fieldDefinitions := [{ key := "material"
                           required := true
                           typeName := "single_line_text_field"
                           validations := [] }] }

/-- A definition-fetch oracle that is never consulted on these paths. -/
def c8GetDef : String → Except String MetaobjectDefinition :=
  fun _ => .error "definition fetch not expected"

/-- A create mutation oracle that always succeeds. -/
def c8CreateResult : String → List (String × String) → Except String String :=
  fun _ _ => .ok "gid://shopify/Metaobject/1"

/-- An update mutation oracle that always succeeds. -/
def c8UpdateResult : String → List (String × String) → Except String String :=
  fun _ _ => .ok "gid://shopify/Metaobject/9"

/-- A stored configuration owning two rules. -/
def c9Config : ConfigRow :=
  { id := 1
    shop := "s.myshopify.com"
    name := some "Acme"
    type := "vendor"
    metafield_configs := "[]"
    priority := 0
    show_on_storefront := false
    storefront_position := "after_price"
    created_at := 0
    updated_at := 0 }

/-- The root rule of configuration 1. -/
def c9Root : Rule :=
  { id := 1
    configurationId := 1
    parentId := none
    ruleType := "vendor"
    ruleValue := "Acme"
    ruleId := none
    operator := "OR"
    level := 0
    position := 0 }

/-- A child rule of `c9Root` in configuration 1. -/
def c9Child : Rule :=
  { id := 2
    configurationId := 1
    parentId := some 1
    ruleType := "category"
    ruleValue := "Tools"
    ruleId := none
    operator := "AND"
    level := 1
    position := 0 }

/-- The database state before duplication. -/
def c9St : DbState :=
  { configurations := [c9Config]
    rules := [c9Root, c9Child]
    nextConfigId := 2
    nextRuleId := 3 }

/-- The configuration row `duplicateConfiguration` creates from
`c9St`. -/
def c9NewConfig : ConfigRow :=
  { id := 2
    shop := "s.myshopify.com"
    name := some "Acme (Copy)"
    type := "vendor"
    metafield_configs := "[]"
    priority := 0
    show_on_storefront := false
    storefront_position := "after_price"
    created_at := 5
    updated_at := 5 }

/-- The database state after duplicating configuration 1 in `c9St`:
the copied child keeps `parent_id = 1`, which is a rule id of the
original configuration, not of the duplicate. -/
def c9DupSt2 : DbState :=
  { configurations := [c9Config, c9NewConfig]
    rules := [c9Root, c9Child,
      { id := 3
        configurationId := 2
        parentId := none
        ruleType := "vendor"
        ruleValue := "Acme"
        ruleId := none
        operator := "OR"
        level := 0
        position := 0 },
      { id := 4
        configurationId := 2
        parentId := some 1
        ruleType := "category"
        ruleValue := "Tools"
        ruleId := none
        operator := "AND"
        level := 1
        position := 0 }]
    nextConfigId := 3
    nextRuleId := 5 }

/-! ## Helper lemmas -/

theorem evalAllNodes_eq_all (p : Product) (l : List RuleNode) :
    evalAllNodes p l = l.all (evaluateRuleNode p) := by
  induction l with
  | nil => rfl
  | cons n ns ih => simp [evalAllNodes, List.all_cons, ih]

theorem evalAnyNodes_eq_any (p : Product) (l : List RuleNode) :
    evalAnyNodes p l = l.any (evaluateRuleNode p) := by
  induction l with
  | nil => rfl
  | cons n ns ih => simp [evalAnyNodes, List.any_cons, ih]

theorem webhookEvalAll_eq_all (p : WebhookProduct) (l : List RuleNode) :
    webhookEvalAll p l = l.all (webhookMatchesRuleNode p) := by
  induction l with
  | nil => rfl
  | cons n ns ih => simp [webhookEvalAll, List.all_cons, ih]

theorem webhookEvalAny_eq_any (p : WebhookProduct) (l : List RuleNode) :
    webhookEvalAny p l = l.any (webhookMatchesRuleNode p) := by
  induction l with
  | nil => rfl
  | cons n ns ih => simp [webhookEvalAny, List.any_cons, ih]

theorem matchesRule_ignores_operator (p : Product) (r : Rule) (op : String) :
    matchesRule p { r with operator := op } = matchesRule p r := rfl

theorem evaluateRuleNode_mk (p : Product) (r : Rule) (c : List RuleNode) :
    evaluateRuleNode p (.mk r c) =
      (if !(matchesRule p r) then false
       else match c with
         | [] => true
         | first :: rest =>
           if (RuleNode.rule first).operator == "AND" then evalAllNodes p (first :: rest)
           else evalAnyNodes p (first :: rest)) := by
  rw [evaluateRuleNode.eq_def]

theorem evaluateRuleNode_setRootOperator (p : Product) (op : String) (n : RuleNode) :
    evaluateRuleNode p (setRootOperator op n) = evaluateRuleNode p n := by
  cases n with
  | mk r c =>
    rw [setRootOperator, evaluateRuleNode_mk, evaluateRuleNode_mk,
      matchesRule_ignores_operator]

theorem webhookMatchesRuleNode_mk (p : WebhookProduct) (r : Rule) (c : List RuleNode) :
    webhookMatchesRuleNode p (.mk r c) =
      (if !(webhookRuleMatches p r) then false
       else match c with
         | [] => true
         | first :: rest =>
           if (RuleNode.rule first).operator == "AND" then webhookEvalAll p (first :: rest)
           else webhookEvalAny p (first :: rest)) := by
  rw [webhookMatchesRuleNode.eq_def]

/-! ## Claim theorems -/

/-- C2: for every catalog item, an empty root list evaluates to `true`;
a root list evaluates to `true` exactly when it is empty or some root
node evaluates to `true`; and rewriting every root's stored `operator`
field never changes the result — roots are OR'd regardless of their
operator. -/
theorem evaluateRuleTree_or_of_roots (p : Product) (t : List RuleNode) :
    evaluateRuleTree p [] = true
    ∧ (evaluateRuleTree p t = true ↔ t = [] ∨ ∃ n ∈ t, evaluateRuleNode p n = true)
    ∧ ∀ op, evaluateRuleTree p (t.map (setRootOperator op)) = evaluateRuleTree p t := by
  refine ⟨rfl, ?_, ?_⟩
  · cases t with
    | nil => simp [evaluateRuleTree]
    | cons a l => simp [evaluateRuleTree, List.any_eq_true]
  · intro op
    cases t with
    | nil => rfl
    | cons a l =>
      simp [evaluateRuleTree, List.any_map, Function.comp_def,
        evaluateRuleNode_setRootOperator]

/-- C4: a rule node evaluates to `false` when its own leaf predicate
fails, to `true` when the predicate succeeds and it has no children,
and otherwise the whole child group is combined by the first child's
operator — `AND` requires every child, any other operator requires at
least one. The same holds for the webhook copy of the evaluator. -/
theorem evaluateRuleNode_first_child_operator (p : Product) (rule : Rule)
    (children : List RuleNode) :
    (evaluateRuleNode p (.mk rule children) =
      (if matchesRule p rule then
        match children with
        | [] => true
        | first :: _ =>
          if (RuleNode.rule first).operator == "AND" then
            children.all (evaluateRuleNode p)
          else
            children.any (evaluateRuleNode p)
      else false))
    ∧ ∀ wp : WebhookProduct,
        webhookMatchesRuleNode wp (.mk rule children) =
          (if webhookRuleMatches wp rule then
            match children with
            | [] => true
            | first :: _ =>
              if (RuleNode.rule first).operator == "AND" then
                children.all (webhookMatchesRuleNode wp)
              else
                children.any (webhookMatchesRuleNode wp)
          else false) := by
  constructor
  · rw [evaluateRuleNode_mk]
    cases h : matchesRule p rule <;> cases children <;>
      simp [evalAllNodes_eq_all, evalAnyNodes_eq_any]
  · intro wp
    rw [webhookMatchesRuleNode_mk]
    cases h : webhookRuleMatches wp rule <;> cases children <;>
      simp [webhookEvalAll_eq_all, webhookEvalAny_eq_any]

theorem isOk_ok {ε α : Type} (u : α) : (Except.ok u : Except ε α).isOk = true := rfl

theorem isOk_error {ε α : Type} (e : ε) : (Except.error e : Except ε α).isOk = false := rfl

theorem applyLoop_spec (w : String → Except String Unit) (ps : List Product) :
    (applyLoop w ps).1 + (applyLoop w ps).2.1 = ps.length
    ∧ (applyLoop w ps).1 = (ps.filter (fun p => (w p.id).isOk)).length
    ∧ (applyLoop w ps).2.2 = ps.filterMap (fun p =>
        match w p.id with
        | .ok _ => none
        | .error m => some (p.id, p.title, m)) := by
  induction ps with
  | nil => simp [applyLoop]
  | cons p rest ih =>
    obtain ⟨h1, h2, h3⟩ := ih
    cases hw : w p.id <;>
      simp [applyLoop, hw, List.filter_cons, List.filterMap_cons, h1, h2, h3,
        isOk_ok, isOk_error] <;> omega

/-- C7: the bulk apply loop reports `total` equal to the number of
matching items, `successful` and `failed` exactly partition `total`,
and `errors` holds exactly one `(id, title, message)` entry per item
whose write throws, in order — a failing item never stops the items
after it. -/
theorem bulkApply_partitions_total (w : String → Except String Unit)
    (products : List Product) :
    (applyConfigurationRoute w products).total = products.length
    ∧ (applyConfigurationRoute w products).successful
        + (applyConfigurationRoute w products).failed
        = (applyConfigurationRoute w products).total
    ∧ (applyConfigurationRoute w products).successful
        = (products.filter (fun p => (w p.id).isOk)).length
    ∧ (applyConfigurationRoute w products).errors
        = products.filterMap (fun p =>
            match w p.id with
            | .ok _ => none
            | .error m => some (p.id, p.title, m)) := by
  obtain ⟨h1, h2, h3⟩ := applyLoop_spec w products
  exact ⟨rfl, h1, h2, h3⟩

/-- C10: a configuration update writes only `name`, `type`,
`metafield_configs` and `updated_at`; the stored `show_on_storefront`
and `storefront_position` columns (and the other columns) are left
unchanged for every row, whatever storefront settings the PUT route
passes along. -/
theorem updateConfiguration_preserves_storefront_columns (id : Nat)
    (name : Option String) (type : String) (mfc : String) (sos : Bool)
    (sp : String) (now : Nat) (table : List ConfigRow) :
    (putConfigurationUpdateCall id name type mfc sos sp now table).map
        (fun r => (r.id, r.shop, r.priority, r.created_at,
          r.show_on_storefront, r.storefront_position))
      = table.map (fun r => (r.id, r.shop, r.priority, r.created_at,
          r.show_on_storefront, r.storefront_position))
    ∧ putConfigurationUpdateCall id name type mfc sos sp now table
      = table.map (fun row =>
          if row.id == id then
            { row with
                name := name
                type := type
                metafield_configs := mfc
                updated_at := now }
          else row) := by
  constructor
  · rw [putConfigurationUpdateCall, updateConfiguration, List.map_map]
    refine List.map_congr_left ?_
    intro row _
    by_cases h : row.id = id <;> simp [h]
  · rfl

theorem matchesRule_product_eq (p : Product) (r : Rule) (s : String)
    (htype : r.ruleType = "product") (hid : r.ruleId = some s) (hs : s ≠ "") :
    matchesRule p r =
      (match parseJson s with
       | some (Json.arr elems) =>
         elems.any (fun j =>
           match j with
           | Json.str t => t == p.id
           | _ => false)
       | _ => p.id == s) := by
  simp [matchesRule, htype, hid, strTruthy, hs]

/-- C5: for a product rule with a present matchRef, a matchRef parsing
as a JSON array matches exactly the items whose identifier occurs in
the array (as a string element) and no others, and a matchRef that
fails to parse matches exactly the item whose identifier equals the raw
matchRef string. -/
theorem productRule_list_semantics (p : Product) (r : Rule) (s : String)
    (htype : r.ruleType = "product") (hid : r.ruleId = some s) (hs : s ≠ "") :
    (∀ xs, parseJson s = some (Json.arr xs) →
      (matchesRule p r = true ↔ ∃ j ∈ xs, j = Json.str p.id))
    ∧ (parseJson s = none → (matchesRule p r = true ↔ p.id = s)) := by
  have key := matchesRule_product_eq p r s htype hid hs
  constructor
  · intro xs hparse
    rw [key, hparse]
    rw [List.any_eq_true]
    constructor
    · rintro ⟨j, hj, hmatch⟩
      cases j with
      | str t =>
        refine ⟨Json.str t, hj, ?_⟩
        have ht : t = p.id := by simpa using hmatch
        rw [ht]
      | null => simp at hmatch
      | bool b => simp at hmatch
      | num n => simp at hmatch
      | arr l => simp at hmatch
    · rintro ⟨j, hj, rfl⟩
      exact ⟨Json.str p.id, hj, by simp⟩
  · intro hparse
    rw [key, hparse]
    simp

theorem jsonArrContainsStr_iff (xs : List Json) (s : String) :
    jsonArrContainsStr xs s = true ↔ ∃ j ∈ xs, j = Json.str s := by
  rw [jsonArrContainsStr, List.any_eq_true]
  constructor
  · rintro ⟨j, hj, hmatch⟩
    cases j with
    | str t =>
      refine ⟨Json.str t, hj, ?_⟩
      have ht : t = s := by simpa using hmatch
      rw [ht]
    | null => simp at hmatch
    | bool b => simp at hmatch
    | num n => simp at hmatch
    | arr l => simp at hmatch
  · rintro ⟨j, hj, rfl⟩
    exact ⟨Json.str s, hj, by simp⟩

/-- C3 counterexample: `matchRef` is present and is a JSON-encoded list
of collection ids, the item belongs to the (single) listed collection
id, yet the product-matcher leaf evaluator returns `false` — it never
parses a collection `matchRef` as JSON, comparing the raw string
against each collection id instead. -/
theorem collectionRule_json_list_counterexample :
    parseJson "[\"gid://shopify/Collection/1\"]"
        = some (Json.arr [Json.str "gid://shopify/Collection/1"])
    ∧ cexProduct.collections.any
        (fun c => c.id == "gid://shopify/Collection/1") = true
    ∧ matchesRule cexProduct cexCollectionListRule = false :=
  ⟨rfl, rfl, rfl⟩

/-- C3 (amended): in the product-matcher leaf evaluator a present
collection `matchRef` is always compared literally as a single id — a
JSON-encoded list is never parsed, so it can only match a collection
whose id equals the raw string — and an absent `matchRef` matches
exactly when some collection title equals `matchValue`. The JSON-list
membership semantics exists only in the storefront
`checkIfConfigApplies` leaf, where a list `matchRef` matches exactly
the items that belong to at least one listed collection id. -/
theorem collectionRule_semantics (p : Product) (r : Rule)
    (htype : r.ruleType = "collection") :
    (∀ s, r.ruleId = some s → s ≠ "" →
      matchesRule p r = p.collections.any (fun c => c.id == s))
    ∧ (r.ruleId = none → r.ruleValue ≠ "" →
      matchesRule p r = p.collections.any (fun c => c.title == r.ruleValue))
    ∧ (∀ handle sp s xs, r.ruleId = some s → parseJson s = some (Json.arr xs) →
      (sfRuleMatches handle sp r = true ↔
        ∃ c ∈ sp.collections, ∃ j ∈ xs, j = Json.str c.id)) := by
  refine ⟨?_, ?_, ?_⟩
  · intro s hid hs
    simp [matchesRule, htype, hid, strTruthy, hs]
  · intro hid hv
    simp [matchesRule, htype, hid, strTruthy, hv]
  · intro handle sp s xs hid hparse
    have hbranch : sfRuleMatches handle sp r
        = sp.collections.any (fun c => jsonArrContainsStr xs c.id) := by
      simp [sfRuleMatches, htype, hid, hparse]
    rw [hbranch, List.any_eq_true]
    simp only [jsonArrContainsStr_iff]

/-- C5 witness: the two-element JSON list matchRef matches the product
whose GID is listed. -/
theorem productRule_list_semantics_witness :
    matchesRule cexProduct cexProductListRule = true :=
  ((productRule_list_semantics cexProduct cexProductListRule
        "[\"gid://shopify/Product/1\",\"gid://shopify/Product/2\"]"
        rfl rfl (by decide)).1
      [Json.str "gid://shopify/Product/1", Json.str "gid://shopify/Product/2"]
      rfl).mpr
    ⟨Json.str "gid://shopify/Product/1", List.mem_cons_self _ _, rfl⟩

/-- C3 witness: the single-id branch of the product-matcher leaf and
the JSON-list branch of the storefront leaf, at concrete inputs. -/
theorem collectionRule_semantics_witness :
    matchesRule cexProduct cexCollectionSingleRule
      = cexProduct.collections.any (fun c => c.id == "gid://shopify/Collection/1")
    ∧ sfRuleMatches "widget" cexSfProduct cexCollectionListRule = true :=
  ⟨(collectionRule_semantics cexProduct cexCollectionSingleRule rfl).1
      "gid://shopify/Collection/1" rfl (by decide),
   ((collectionRule_semantics cexProduct cexCollectionListRule rfl).2.2
        "widget" cexSfProduct "[\"gid://shopify/Collection/1\"]"
        [Json.str "gid://shopify/Collection/1"] rfl rfl).mpr
     ⟨⟨"gid://shopify/Collection/1", "summer", "Summer"⟩, List.mem_cons_self _ _,
      Json.str "gid://shopify/Collection/1", List.mem_cons_self _ _, rfl⟩⟩

theorem treeContainsRule_mk (r rule : Rule) (children : List RuleNode) :
    treeContainsRule r (.mk rule children)
      = (rule == r || listContainsRule r children) := by
  rw [treeContainsRule.eq_def]

theorem listContainsRule_eq_any (r : Rule) (l : List RuleNode) :
    listContainsRule r l = l.any (treeContainsRule r) := by
  induction l with
  | nil => simp [listContainsRule]
  | cons n ns ih => simp [listContainsRule, List.any_cons, ih]

theorem buildNode_not_contains (rules : List Rule) (r : Rule) (pid : Nat)
    (hpid : r.parentId = some pid) (hdangling : ∀ q ∈ rules, q.id ≠ pid) :
    ∀ fuel, ∀ x ∈ rules, x ≠ r → treeContainsRule r (buildNode rules fuel x) = false := by
  intro fuel
  induction fuel with
  | zero =>
    intro x hx hxr
    rw [buildNode, treeContainsRule_mk]
    simp [listContainsRule, beq_eq_false_iff_ne, hxr]
  | succ fuel ih =>
    intro x hx hxr
    rw [buildNode, treeContainsRule_mk, listContainsRule_eq_any]
    have hxf : (x == r) = false := beq_eq_false_iff_ne.mpr hxr
    rw [hxf, Bool.false_or, List.any_eq_false]
    intro n hn
    rw [List.mem_map] at hn
    obtain ⟨c, hc, rfl⟩ := hn
    rw [List.mem_filter] at hc
    obtain ⟨hcmem, hcpar⟩ := hc
    simp only [Bool.not_eq_true]
    apply ih c hcmem
    intro hcr
    subst hcr
    rw [hpid] at hcpar
    have hpx : pid = x.id := by simpa using hcpar
    exact hdangling x hx hpx.symm

/-- C6: a rule whose non-null `parentId` is not the id of any rule in
the input list appears nowhere in the built tree — not as a root and
not as any node's descendant; the builder drops it silently (it is a
total function, so no error can be raised). -/
theorem buildRuleTree_drops_dangling (rules : List Rule) (r : Rule) (pid : Nat)
    (hmem : r ∈ rules) (hpid : r.parentId = some pid)
    (hdangling : ∀ q ∈ rules, q.id ≠ pid) :
    ∀ n ∈ buildRuleTree rules, treeContainsRule r n = false := by
  intro n hn
  rw [buildRuleTree, List.mem_map] at hn
  obtain ⟨root, hroot, rfl⟩ := hn
  rw [List.mem_filter] at hroot
  obtain ⟨hrootmem, hrootnone⟩ := hroot
  refine buildNode_not_contains rules r pid hpid hdangling _ root hrootmem ?_
  intro heq
  subst heq
  rw [hpid] at hrootnone
  simp at hrootnone

/-- C6 witness: in the concrete two-rule fixture the dangling rule is
absent from the (single-root) built tree. -/
theorem buildRuleTree_drops_dangling_witness :
    treeContainsRule c6Dangling (RuleNode.mk c6Root []) = false :=
  buildRuleTree_drops_dangling c6Rules c6Dangling 99 (by decide) rfl (by decide)
    (RuleNode.mk c6Root [])
    (by rw [show buildRuleTree c6Rules = [RuleNode.mk c6Root []] from rfl]
        exact List.mem_cons_self _ _)

theorem mem_insertBy {α : Type} (le : α → α → Bool) (x a : α) (l : List α) :
    a ∈ insertBy le x l ↔ a = x ∨ a ∈ l := by
  induction l with
  | nil => simp [insertBy]
  | cons y ys ih =>
    rw [insertBy]
    by_cases hle : le x y = true
    · rw [if_pos hle]
      simp [List.mem_cons]
    · rw [if_neg hle]
      simp only [List.mem_cons, ih]
      tauto

theorem mem_insertionSortBy {α : Type} (le : α → α → Bool) (a : α) (l : List α) :
    a ∈ insertionSortBy le l ↔ a ∈ l := by
  induction l with
  | nil => simp [insertionSortBy]
  | cons x xs ih =>
    rw [insertionSortBy, mem_insertBy]
    simp [ih]

theorem pairwise_insertBy {α : Type} (le : α → α → Bool) (P : α → α → Prop)
    (h1 : ∀ a b, le a b = true → P a b) (h2 : ∀ a b, le a b = false → P b a)
    (htrans : ∀ a b c, P a b → P b c → P a c)
    (x : α) (l : List α) (hl : l.Pairwise P) : (insertBy le x l).Pairwise P := by
  induction l with
  | nil => simp [insertBy]
  | cons y ys ih =>
    rw [List.pairwise_cons] at hl
    obtain ⟨hy, hys⟩ := hl
    rw [insertBy]
    by_cases hle : le x y = true
    · rw [if_pos hle, List.pairwise_cons]
      refine ⟨?_, List.pairwise_cons.mpr ⟨hy, hys⟩⟩
      intro z hz
      rcases List.mem_cons.mp hz with rfl | hz2
      · exact h1 x z hle
      · exact htrans x y z (h1 x y hle) (hy z hz2)
    · rw [if_neg hle, List.pairwise_cons]
      refine ⟨?_, ih hys⟩
      intro z hz
      rcases (mem_insertBy le x z ys).mp hz with rfl | hz2
      · exact h2 z y (by simpa using hle)
      · exact hy z hz2

theorem pairwise_insertionSortBy {α : Type} (le : α → α → Bool) (P : α → α → Prop)
    (h1 : ∀ a b, le a b = true → P a b) (h2 : ∀ a b, le a b = false → P b a)
    (htrans : ∀ a b c, P a b → P b c → P a c)
    (l : List α) : (insertionSortBy le l).Pairwise P := by
  induction l with
  | nil => simp [insertionSortBy]
  | cons x xs ih =>
    rw [insertionSortBy]
    exact pairwise_insertBy le P h1 h2 htrans x (insertionSortBy le xs) ih

theorem processConfigs_eq (payload : WebhookProduct) (rulesOf : Nat → List Rule)
    (applyOutcome : Nat → Except String Unit) (configs : List ConfigRow) :
    processConfigs payload rulesOf applyOutcome configs
      = (configs.filter (fun c => productMatchesRules payload (rulesOf c.id))).map
          (fun c => (c.id, (applyOutcome c.id).isOk)) := by
  induction configs with
  | nil => rfl
  | cons c rest ih =>
    by_cases hm : productMatchesRules payload (rulesOf c.id) = true
    · cases ho : applyOutcome c.id <;>
        simp [processConfigs, hm, ho, List.filter_cons, ih, isOk_ok, isOk_error]
    · rw [Bool.not_eq_true] at hm
      simp [processConfigs, hm, List.filter_cons, ih]

/-- C1: for a product-created or product-updated event, the handler
works through all of the tenant's configurations ordered by descending
priority, applies every configuration whose rule tree matches the
event's item attributes (each with its own independent outcome, so one
configuration's failure never suppresses the rest), and — whatever the
payload, session and outcomes are — always returns normally instead of
propagating an exception; the update handler is the same function as
the create handler. -/
theorem handleProductCreate_priority_resolution (shop : String)
    (rows : List ConfigRow) (rulesOf : Nat → List Rule)
    (applyOutcome : Nat → Except String Unit) (payload : WebhookProduct) :
    List.Pairwise (fun a b => b.priority ≤ a.priority) (getAllConfigurations shop rows)
    ∧ (∀ c, c ∈ getAllConfigurations shop rows ↔ c ∈ rows ∧ c.shop = shop)
    ∧ handleProductCreate (.ok payload) (some ()) shop rows rulesOf applyOutcome
        = .ok (((getAllConfigurations shop rows).filter
            (fun c => productMatchesRules payload (rulesOf c.id))).map
              (fun c => (c.id, (applyOutcome c.id).isOk)))
    ∧ (∀ bodyParse session,
        (handleProductCreate bodyParse session shop rows rulesOf applyOutcome).isOk
          = true)
    ∧ (∀ bodyParse session,
        handleProductUpdate bodyParse session shop rows rulesOf applyOutcome
          = handleProductCreate bodyParse session shop rows rulesOf applyOutcome) := by
  refine ⟨?_, ?_, ?_, ?_, ?_⟩
  · refine pairwise_insertionSortBy configBefore _ ?_ ?_ ?_ _
    · intro a b h
      simp only [configBefore, Bool.or_eq_true, Bool.and_eq_true, beq_iff_eq,
        decide_eq_true_eq] at h
      rcases h with h | ⟨h, _⟩
      · exact le_of_lt h
      · exact le_of_eq h.symm
    · intro a b h
      simp only [configBefore, Bool.or_eq_false_iff, Bool.and_eq_false_iff] at h
      have := h.1
      simp only [decide_eq_false_iff_not, not_lt] at this
      exact this
    · intro a b c hab hbc
      exact le_trans hbc hab
  · intro c
    rw [getAllConfigurations, mem_insertionSortBy, List.mem_filter]
    simp
  · have h := processConfigs_eq payload rulesOf applyOutcome (getAllConfigurations shop rows)
    calc handleProductCreate (.ok payload) (some ()) shop rows rulesOf applyOutcome
        = .ok (processConfigs payload rulesOf applyOutcome
            (getAllConfigurations shop rows)) := rfl
      _ = _ := by rw [h]
  · intro bodyParse session
    cases hb : handleProductCreateBody bodyParse session shop rows rulesOf applyOutcome <;>
      simp [handleProductCreate, hb, isOk_ok]
  · intro bodyParse session
    rfl

theorem except_bind_ok {ε α β : Type} (a : α) (f : α → Except ε β) :
    (Except.ok a : Except ε α) >>= f = f a := rfl

theorem except_bind_error {ε α β : Type} (e : ε) (f : α → Except ε β) :
    (Except.error e : Except ε α) >>= f = .error e := rfl

theorem processCreateFields_required_missing
    (getDef : String → Except String MetaobjectDefinition)
    (createResult : String → List (String × String) → Except String String)
    (fieldValues : List (String × FieldValue)) (fd : FieldDefinition)
    (hreq : fd.required = true)
    (hmiss : valueMissing (lookupFieldValue fieldValues fd.key) = true) :
    ∀ fuel fds, fd ∈ fds →
      ∃ e, processCreateFields fuel getDef createResult fieldValues fds = .error e := by
  intro fuel fds
  induction fds with
  | nil => intro h; cases h
  | cons g rest ih =>
    intro hmem
    rcases List.mem_cons.mp hmem with rfl | hrest
    · exact ⟨"Required field " ++ fd.key ++ " is missing",
        by simp [processCreateFields, hmiss, hreq]⟩
    · obtain ⟨e, he⟩ := ih hrest
      by_cases hmg : valueMissing (lookupFieldValue fieldValues g.key) = true
      · by_cases hrg : g.required = true
        · exact ⟨"Required field " ++ g.key ++ " is missing",
            by simp [processCreateFields, hmg, hrg]⟩
        · rw [Bool.not_eq_true] at hrg
          exact ⟨e, by simp [processCreateFields, hmg, hrg, he]⟩
      · rw [Bool.not_eq_true] at hmg
        by_cases hmo : (g.typeName == "metaobject_reference") = true
        · cases hfind : findMetaobjectDefinitionId g.validations with
          | none =>
            exact ⟨"Cannot find referenced metaobject type for field " ++ g.key,
              by simp [processCreateFields, hmg, hmo, hfind]⟩
          | some validation =>
            cases hgd : getDef validation.2 with
            | error e2 =>
              exact ⟨e2, by simp [processCreateFields, hmg, hmo, hfind, hgd,
                except_bind_error]⟩
            | ok rd =>
              cases hcm : createMetaobject fuel getDef createResult rd.type
                  (nestedFieldValues (lookupFieldValue fieldValues g.key)) rd with
              | error e2 =>
                exact ⟨e2, by simp [processCreateFields, hmg, hmo, hfind, hgd, hcm,
                  except_bind_ok, except_bind_error]⟩
              | ok gid =>
                exact ⟨e, by simp [processCreateFields, hmg, hmo, hfind, hgd, hcm, he,
                  except_bind_ok, except_bind_error]⟩
        · rw [Bool.not_eq_true] at hmo
          exact ⟨e, by simp [processCreateFields, hmg, hmo, he, except_bind_ok,
            except_bind_error]⟩

theorem processUpdateFields_skips_missing
    (getDef : String → Except String MetaobjectDefinition)
    (createResult : String → List (String × String) → Except String String)
    (fieldValues : List (String × FieldValue)) (fd : FieldDefinition)
    (hmiss : valueMissing (lookupFieldValue fieldValues fd.key) = true) :
    ∀ fuel pre post,
      processUpdateFields fuel getDef createResult fieldValues (pre ++ fd :: post)
        = processUpdateFields fuel getDef createResult fieldValues (pre ++ post) := by
  intro fuel pre
  induction pre with
  | nil =>
    intro post
    simp [processUpdateFields, hmiss]
  | cons g pre ih =>
    intro post
    simp only [List.cons_append, processUpdateFields, List.append_eq]
    rw [ih]

/-- C8 counterexample: the definition's only field is required and the
supplied field values are empty, yet update-in-place resolution
succeeds — `updateMetaobject` silently writes the object without the
field instead of failing. -/
theorem updateMetaobject_required_missing_counterexample :
    c8Defn.fieldDefinitions.all (fun fd => fd.required) = true
    ∧ lookupFieldValue [] "material" = none
    ∧ updateMetaobject 1 c8GetDef c8CreateResult c8UpdateResult
        "gid://shopify/Metaobject/9" [] c8Defn = .ok "gid://shopify/Metaobject/9" :=
  ⟨rfl, rfl, rfl⟩

/-- C8 (amended): only the create path enforces required fields — when
the definition marks a field required and the supplied values give it
no value (undefined, null or empty string), `createMetaobject` fails
with a propagating error, while `updateMetaobject` behaves exactly as
if the field were absent from the definition, silently writing the
object without it. -/
theorem requiredField_create_fails_update_skips (fuel : Nat)
    (getDef : String → Except String MetaobjectDefinition)
    (createResult updateResult : String → List (String × String) → Except String String)
    (metaobjectType metaobjectId : String)
    (fieldValues : List (String × FieldValue)) (defn : MetaobjectDefinition)
    (fd : FieldDefinition) (hreq : fd.required = true)
    (hmiss : valueMissing (lookupFieldValue fieldValues fd.key) = true) :
    (fd ∈ defn.fieldDefinitions →
      ∃ e, createMetaobject fuel getDef createResult metaobjectType fieldValues defn
        = .error e)
    ∧ ∀ pre post, defn.fieldDefinitions = pre ++ fd :: post →
        updateMetaobject fuel getDef createResult updateResult metaobjectId
            fieldValues defn
          = updateMetaobject fuel getDef createResult updateResult metaobjectId
              fieldValues { defn with fieldDefinitions := pre ++ post } := by
  constructor
  · intro hmem
    cases fuel with
    | zero =>
      exact ⟨"metaobject recursion limit exceeded", by simp [createMetaobject]⟩
    | succ fuel =>
      obtain ⟨e, he⟩ := processCreateFields_required_missing getDef createResult
        fieldValues fd hreq hmiss fuel defn.fieldDefinitions hmem
      exact ⟨e, by simp [createMetaobject, he, except_bind_error]⟩
  · intro pre post hsplit
    rw [updateMetaobject, updateMetaobject, hsplit]
    rw [processUpdateFields_skips_missing getDef createResult fieldValues fd hmiss]

/-- C8 witness: at the concrete one-required-field definition with
empty field values, creation fails and the update resolution coincides
with the update of the field-free definition. -/
theorem requiredField_create_fails_update_skips_witness :
    (∃ e, createMetaobject 1 c8GetDef c8CreateResult "specs" [] c8Defn = .error e)
    ∧ updateMetaobject 1 c8GetDef c8CreateResult c8UpdateResult
        "gid://shopify/Metaobject/9" [] c8Defn
      = updateMetaobject 1 c8GetDef c8CreateResult c8UpdateResult
          "gid://shopify/Metaobject/9" [] { c8Defn with fieldDefinitions := [] } :=
  ⟨(requiredField_create_fails_update_skips 1 c8GetDef c8CreateResult c8UpdateResult
      "specs" "gid://shopify/Metaobject/9" [] c8Defn
      ⟨"material", true, "single_line_text_field", []⟩ rfl rfl).1
      (List.mem_cons_self _ _),
   (requiredField_create_fails_update_skips 1 c8GetDef c8CreateResult c8UpdateResult
      "specs" "gid://shopify/Metaobject/9" [] c8Defn
      ⟨"material", true, "single_line_text_field", []⟩ rfl rfl).2 [] [] rfl⟩

theorem duplicateRules_foldl (newCid : Nat) : ∀ (L : List Rule) (st0 : DbState),
    (L.foldl (fun acc r =>
      (createConfigurationRule newCid r.parentId r.ruleType r.ruleValue r.ruleId
        r.operator r.level r.position acc).2) st0)
      = { st0 with
            rules := st0.rules ++ copiedRules newCid st0.nextRuleId L
            nextRuleId := st0.nextRuleId + L.length } := by
  intro L
  induction L with
  | nil => intro st0; simp [copiedRules]
  | cons r rs ih =>
    intro st0
    rw [List.foldl_cons, ih]
    simp [createConfigurationRule, copiedRules, List.append_assoc]
    omega

theorem mem_copiedRules (cid : Nat) : ∀ (L : List Rule) (n : Nat) (x : Rule),
    x ∈ copiedRules cid n L →
      x.configurationId = cid ∧ n ≤ x.id
      ∧ ∃ r ∈ L, x.parentId = r.parentId ∧ x.ruleType = r.ruleType
          ∧ x.ruleValue = r.ruleValue ∧ x.ruleId = r.ruleId ∧ x.operator = r.operator
          ∧ x.level = r.level ∧ x.position = r.position := by
  intro L
  induction L with
  | nil => intro n x hx; simp [copiedRules] at hx
  | cons r rs ih =>
    intro n x hx
    rw [copiedRules] at hx
    rcases List.mem_cons.mp hx with rfl | hx2
    · exact ⟨rfl, le_refl _, r, List.mem_cons_self _ _, rfl, rfl, rfl, rfl, rfl, rfl, rfl⟩
    · obtain ⟨h1, h2, rr, hrr, hfields⟩ := ih (n + 1) x hx2
      exact ⟨h1, by omega, rr, List.mem_cons.mpr (Or.inr hrr), hfields⟩

theorem buildRuleTree_all_roots (rules : List Rule)
    (h : ∀ r ∈ rules, ∀ p, r.parentId = some p → ∀ x ∈ rules, x.id ≠ p) :
    buildRuleTree rules
      = (rules.filter (fun r => r.parentId == none)).map (fun r => RuleNode.mk r []) := by
  rw [buildRuleTree]
  apply List.map_congr_left
  intro r hr
  rw [List.mem_filter] at hr
  have hempty : rules.filter (fun c => c.parentId == some r.id) = [] := by
    rw [List.filter_eq_nil_iff]
    intro c hc
    cases hcpar : c.parentId with
    | none => simp
    | some p =>
      have hne := h c hc p hcpar r hr.1
      simp [hne]
      intro hpe
      exact absurd hpe.symm hne
  cases hlen : rules.length with
  | zero => rw [buildNode]
  | succ n =>
    rw [buildNode, hempty]
    rfl

/-- C9: duplicating a configuration copies each rule with `parent_id`
taken verbatim from the source rule. Under the database invariants
(every stored rule id and every stored parent reference is below the
SERIAL counter, and every stored rule belongs to an existing, hence
lower-id, configuration), every copied rule's fields besides id and
owner coincide with a source rule of the original configuration, no
copied rule's parent reference is the id of a copied rule, and building
the rule tree over the duplicate's own rules therefore yields exactly
its `parent_id`-null rules as childless roots — every copied child rule
is dropped as dangling. -/
theorem duplicateConfiguration_children_dropped (id : Nat) (shop : String)
    (now : Nat) (st : DbState) (newConfig : ConfigRow) (st2 : DbState)
    (hdup : duplicateConfiguration id shop now st = some (newConfig, st2))
    (hFK : ∀ r ∈ st.rules, ∀ q, r.parentId = some q → q < st.nextRuleId)
    (hCfg : ∀ r ∈ st.rules, r.configurationId < st.nextConfigId) :
    (∀ r2 ∈ getConfigurationRules newConfig.id st2,
      ∃ r ∈ st.rules, r.configurationId = id ∧ r2.parentId = r.parentId
        ∧ r2.ruleType = r.ruleType ∧ r2.ruleValue = r.ruleValue
        ∧ r2.ruleId = r.ruleId ∧ r2.operator = r.operator
        ∧ r2.level = r.level ∧ r2.position = r.position)
    ∧ (∀ r2 ∈ getConfigurationRules newConfig.id st2, ∀ p, r2.parentId = some p →
        ∀ r3 ∈ getConfigurationRules newConfig.id st2, r3.id ≠ p)
    ∧ buildRuleTree (getConfigurationRules newConfig.id st2)
        = ((getConfigurationRules newConfig.id st2).filter
            (fun r => r.parentId == none)).map (fun r => RuleNode.mk r []) := by
  rw [duplicateConfiguration] at hdup
  cases hfind : getConfigurationById id st with
  | none => rw [hfind] at hdup; cases hdup
  | some original =>
    rw [hfind] at hdup
    simp only [Option.some.injEq, Prod.mk.injEq] at hdup
    obtain ⟨hnewc, hst2⟩ := hdup
    -- The source rule list and the copies it produces.
    set sourceRules := getConfigurationRules id st with hsource
    have hnewcid : newConfig.id = st.nextConfigId := by rw [← hnewc]; rfl
    have hst2rules : st2.rules
        = st.rules ++ copiedRules newConfig.id st.nextRuleId sourceRules := by
      rw [← hst2, duplicateRules_foldl, ← hnewc]; rfl
    -- Membership in the duplicate's rules is membership in the copies.
    have hdupmem : ∀ x, x ∈ getConfigurationRules newConfig.id st2
        ↔ x ∈ copiedRules newConfig.id st.nextRuleId sourceRules := by
      intro x
      rw [getConfigurationRules, mem_insertionSortBy, List.mem_filter, hst2rules,
        List.mem_append]
      constructor
      · rintro ⟨hmem | hmem, hcid⟩
        · exfalso
          have hlt := hCfg x hmem
          rw [beq_iff_eq] at hcid
          omega
        · exact hmem
      · intro hmem
        refine ⟨Or.inr hmem, ?_⟩
        rw [beq_iff_eq]
        exact (mem_copiedRules newConfig.id sourceRules st.nextRuleId x hmem).1
    -- Source rules live in the original configuration's row set.
    have hsrcmem : ∀ r, r ∈ sourceRules → r ∈ st.rules ∧ r.configurationId = id := by
      intro r hr
      rw [hsource, getConfigurationRules, mem_insertionSortBy, List.mem_filter] at hr
      exact ⟨hr.1, by have := hr.2; rwa [beq_iff_eq] at this⟩
    have hcopyfacts := fun x hx =>
      mem_copiedRules newConfig.id sourceRules st.nextRuleId x hx
    -- No copied rule's parent reference hits a copied rule's id.
    have hnohit : ∀ r2 ∈ getConfigurationRules newConfig.id st2, ∀ p,
        r2.parentId = some p →
        ∀ r3 ∈ getConfigurationRules newConfig.id st2, r3.id ≠ p := by
      intro r2 hr2 p hp r3 hr3
      obtain ⟨_, _, src, hsrc, hpar, _⟩ := hcopyfacts r2 ((hdupmem r2).mp hr2)
      obtain ⟨hsrcrules, _⟩ := hsrcmem src hsrc
      have hplt : p < st.nextRuleId := by
        apply hFK src hsrcrules
        rw [← hpar, hp]
      have hge : st.nextRuleId ≤ r3.id := (hcopyfacts r3 ((hdupmem r3).mp hr3)).2.1
      omega
    refine ⟨?_, hnohit, ?_⟩
    · intro r2 hr2
      obtain ⟨_, _, src, hsrc, hfields⟩ := hcopyfacts r2 ((hdupmem r2).mp hr2)
      obtain ⟨hsrcrules, hsrccid⟩ := hsrcmem src hsrc
      exact ⟨src, hsrcrules, hsrccid, hfields⟩
    · exact buildRuleTree_all_roots _ hnohit

/-- C9 witness: duplicating the two-rule fixture configuration yields a
duplicate whose rule tree consists of its `parent_id`-null rules alone,
as childless roots. -/
theorem duplicateConfiguration_children_dropped_witness :
    buildRuleTree (getConfigurationRules 2 c9DupSt2)
      = ((getConfigurationRules 2 c9DupSt2).filter
          (fun r => r.parentId == none)).map (fun r => RuleNode.mk r []) :=
  (duplicateConfiguration_children_dropped 1 "s.myshopify.com" 5 c9St c9NewConfig
    c9DupSt2 rfl
    (by
      intro r hr q hq
      simp [c9St] at hr
      rcases hr with rfl | rfl
      · simp [c9Root] at hq
      · simp [c9Child] at hq
        simp [c9St]
        omega)
    (by decide)).2.2
